import Mathlib

/-!
Verification development for the coin settlement bot (src/index.js).

The file embeds, as executable Lean definitions, the parts of the source
the claims are about:

* the amount codec (`formatCoinAmount`, `toApiFormat`), modelling
  JavaScript numbers as exact rationals plus the non-finite values
  `NaN`, `Infinity`, `-Infinity`;
* the card-id mask (`maskCardId`), modelling JS strings as char lists;
* the `PaymentQueue` class (`add` / `process` / `processItem`) as a
  labelled transition system over an explicit event-loop state: every
  `await` in the drain loop is a suspension point, and externally
  arriving `add` calls may interleave at any suspension point;
* the binary64 rounding of the withdraw handler's ledger arithmetic
  (`Math.floor((d0 + dollarAmount) * 100) / 100`) through the sound
  rounding relation `fl64`.

Numeric fidelity: for the codec claims the exact-rational model is
faithful at every input used: the doubles for 0.123456789 and 10 * 1e-8
lie strictly inside the same 8th-digit rounding interval as the exact
decimal rationals, so `toFixed(8)` produces the same digits either way.
The ledger arithmetic of claim C6 is NOT idealized: each `+`, `*`, `/`
of the source's continuation is modelled as an IEEE-754 binary64
round-to-nearest step via `fl64`, which is where the one-cent floor
loss at balance 0.03 shows up.
-/

namespace CoinBot

/-- A JavaScript number: `NaN`, the two infinities, or a finite value
modelled as an exact rational. -/
inductive JSNum where
  | nan
  | inf
  | negInf
  | finite (q : ℚ)
deriving DecidableEq

/-- `isNaN(x)` of JavaScript. -/
def JSNum.isNaN : JSNum → Bool
  | .nan => true
  | _ => false

/-- `Number.isFinite(x)` of JavaScript. -/
def JSNum.isFinite : JSNum → Bool
  | .finite _ => true
  | _ => false

/-- The integer `n` that `toFixed(f)` picks for a nonnegative value `x`
scaled by `10^f`: the `n` with `n / 10^f` closest to `x`, ties resolved
to the larger `n` (ECMA-262 Number.prototype.toFixed). -/
def jsRound (x : ℚ) : ℤ := ⌊x + 1 / 2⌋

/-- The 8-fraction-digit numerator `toFixed(8)` renders for a nonnegative
rational. -/
def numer8 (q : ℚ) : ℕ := (jsRound (q * 100000000)).toNat

/-- Left-pad the decimal digits of `m` with zeros to width 8 (the
fraction part of a `toFixed(8)` rendering). -/
def zpad8 (m : ℕ) : String :=
  let s := Nat.repr m
  String.mk (List.replicate (8 - s.length) '0') ++ s

/-- Decimal text of `n / 10^8` with exactly 8 fraction digits. -/
def fixed8Digits (n : ℕ) : String :=
  Nat.repr (n / 100000000) ++ "." ++ zpad8 (n % 100000000)

/-- `x.toFixed(8)` for a JavaScript number `x` (ECMA-262: non-finite
values render via ToString; a negative finite value renders as the
rendering of its negation behind a minus sign). -/
def jsToFixed8 : JSNum → String
  | .nan => "NaN"
  | .inf => "Infinity"
  | .negInf => "-Infinity"
  | .finite q =>
      if q < 0 then "-" ++ fixed8Digits (numer8 (-q)) else fixed8Digits (numer8 q)

/-- `s.replace(/0+$/, '')`: drop the maximal run of `'0'` at the end. -/
def rstripZeros (s : String) : String :=
  String.mk ((s.data.reverse.dropWhile (· == '0')).reverse)

/-- `s.replace(/\.$/, '')`: drop a single trailing `'.'`. -/
def rstripDot (s : String) : String :=
  if s.data.getLast? = some '.' then String.mk s.data.dropLast else s

/-- `s.includes(c)` for a single character. -/
def containsChar (s : String) (c : Char) : Bool := s.data.contains c

/-- The trailing-zero cleanup of `formatCoinAmount` (src/index.js lines
306-309): when the text contains a dot, strip trailing zeros, then a
bare trailing dot. -/
def stripIfDot (f : String) : String :=
  if containsChar f '.' then rstripDot (rstripZeros f) else f

/-- `PaymentQueue.formatCoinAmount` (src/index.js lines 297-312): NaN
maps to the fallback text `'0.00000000'`; otherwise `toFixed(8)`
followed by the trailing-zero cleanup. -/
def formatCoinAmount (x : JSNum) : String :=
  if x.isNaN then "0.00000000" else stripIfDot (jsToFixed8 x)

/-- `suffix.isSuffixOf s` on the underlying character lists:
`s.endsWith(suffix)`. -/
def endsWithStr (s suf : String) : Bool := List.isSuffixOf suf.data s.data

/-- Drop the last `n` characters of `s` (`s.substring(0, s.length - n)`). -/
def dropLastN (s : String) (n : ℕ) : String :=
  String.mk (s.data.take (s.data.length - n))

/-- The cleanup of `toApiFormat` (src/index.js lines 402-413): an
all-zero fraction is cut off wholesale; otherwise trailing zeros and a
bare trailing dot are stripped. -/
def apiStrip (f : String) : String :=
  if endsWithStr f ".00000000" then dropLastN f 9
  else
    let f2 := rstripZeros f
    if f2.data.getLast? = some '.' then String.mk f2.data.dropLast else f2

/-- `toApiFormat` (src/index.js lines 394-414). -/
def toApiFormat (x : JSNum) : String :=
  if x.isNaN then "0.00000000" else apiStrip (jsToFixed8 x)

/-- `maskCardId` (src/index.js lines 325-329) over the character list of
the input: inputs shorter than 3 characters (including the empty string,
which is also falsy in JS) give `'###'`; otherwise the first 3
characters followed by `'#'` repeated `length - 3` times. -/
def maskCardId (card : List Char) : List Char :=
  if card.length < 3 then ['#', '#', '#']
  else card.take 3 ++ List.replicate (card.length - 3) '#'

/-- The withdraw handler's fiat→coin conversion (src/index.js line 1192):
`coinAmount = dollarAmount * 0.00000001`. -/
def withdrawCoinAmount (dollarAmount : ℚ) : ℚ := dollarAmount * (1 / 100000000)

/-! ### Codec computation lemmas -/

/-- For a nonnegative finite input the transport encoding is the
cleanup of the 8-digit rendering of its rounded numerator. -/
theorem formatCoinAmount_nonneg (q : ℚ) (h : ¬ q < 0) :
    formatCoinAmount (JSNum.finite q) = stripIfDot (fixed8Digits (numer8 q)) := by
  unfold formatCoinAmount jsToFixed8
  simp [JSNum.isNaN, h]

theorem numer8_c3_input : numer8 (123456789 / 1000000000) = 12345679 := by
  unfold numer8 jsRound
  have h : (123456789 / 1000000000 : ℚ) * 100000000 + 1 / 2 = 123456794 / 10 := by
    norm_num
  rw [h]
  have h2 : ⌊(123456794 / 10 : ℚ)⌋ = 12345679 := by
    rw [Int.floor_eq_iff]
    constructor <;> norm_num
  rw [h2]
  rfl

theorem numer8_c6_input : numer8 (withdrawCoinAmount 10) = 10 := by
  unfold withdrawCoinAmount numer8 jsRound
  have h : (10 * (1 / 100000000) : ℚ) * 100000000 + 1 / 2 = 21 / 2 := by norm_num
  rw [h]
  have h2 : ⌊(21 / 2 : ℚ)⌋ = 10 := by
    rw [Int.floor_eq_iff]
    constructor <;> norm_num
  rw [h2]
  rfl

/-! ### Claim C3: the transport encoding rounds instead of truncating -/

/-- C3 counterexample: the claim says the coin transport encoding
truncates toward zero at the 8th fraction digit, so that 0.123456789
encodes to the string `"0.12345678"`.  The code uses `toFixed(8)`, which
rounds to the nearest 8-digit value, so 0.123456789 encodes to
`"0.12345679"`, not `"0.12345678"`. -/
theorem c3_truncation_counterexample :
    formatCoinAmount (JSNum.finite (123456789 / 1000000000)) = "0.12345679" ∧
    formatCoinAmount (JSNum.finite (123456789 / 1000000000)) ≠ "0.12345678" := by
  rw [formatCoinAmount_nonneg _ (by norm_num), numer8_c3_input]
  exact ⟨by decide, by decide⟩

/-- C3 amended: the coin transport encoding rounds its finite input to
the nearest value at the 8th fraction digit (ties upward), so the
rendered numerator is within 1/2 of the scaled input; in particular
0.123456789 encodes to `"0.12345679"`. -/
theorem c3_rounding_amended (q : ℚ) (h : 0 ≤ q) :
    |((numer8 q : ℚ)) - q * 100000000| ≤ 1 / 2 ∧
    formatCoinAmount (JSNum.finite (123456789 / 1000000000)) = "0.12345679" := by
  refine ⟨?_, c3_truncation_counterexample.1⟩
  have hx : (0 : ℚ) ≤ q * 100000000 := by positivity
  have hnn : (0 : ℤ) ≤ jsRound (q * 100000000) := by
    unfold jsRound
    exact Int.le_floor.mpr (by push_cast; linarith)
  have hcast : ((numer8 q : ℚ)) = ((jsRound (q * 100000000) : ℤ) : ℚ) := by
    unfold numer8
    exact_mod_cast Int.toNat_of_nonneg hnn
  rw [hcast]
  have hub : ((jsRound (q * 100000000) : ℤ) : ℚ) ≤ q * 100000000 + 1 / 2 :=
    Int.floor_le _
  have hlb : q * 100000000 + 1 / 2 - 1 < ((jsRound (q * 100000000) : ℤ) : ℚ) :=
    Int.sub_one_lt_floor _
  rw [abs_le]
  constructor <;> linarith

/-- C3 amended, witnessed at the concrete input 0.123456789. -/
theorem c3_rounding_amended_witness :
    (0 : ℚ) ≤ 123456789 / 1000000000 ∧
      (|((numer8 (123456789 / 1000000000) : ℚ)) -
          (123456789 / 1000000000) * 100000000| ≤ 1 / 2 ∧
        formatCoinAmount (JSNum.finite (123456789 / 1000000000)) = "0.12345679") :=
  ⟨by norm_num, c3_rounding_amended (123456789 / 1000000000) (by norm_num)⟩

/-! ### Claim C7: non-finite input does not fail, it yields fallback text -/

/-- C7 counterexample: the claim says the transport encoding fails with
`InvalidAmount` for non-finite input rather than producing any encoded
string.  The code never fails: NaN yields the fallback string
`"0.00000000"` and Infinity yields the string `"Infinity"`. -/
theorem c7_invalid_amount_counterexample :
    formatCoinAmount JSNum.nan = "0.00000000" ∧
    formatCoinAmount JSNum.inf = "Infinity" := by
  exact ⟨rfl, by decide⟩

/-- C7 amended: for every non-finite input the transport encoding does
not fail; it returns one of the fallback strings `"0.00000000"` (NaN),
`"Infinity"`, `"-Infinity"`. -/
theorem c7_nonfinite_fallback (x : JSNum) (h : x.isFinite = false) :
    formatCoinAmount x = "0.00000000" ∨ formatCoinAmount x = "Infinity" ∨
      formatCoinAmount x = "-Infinity" := by
  cases x with
  | nan => exact Or.inl rfl
  | inf => exact Or.inr (Or.inl (by decide))
  | negInf => exact Or.inr (Or.inr (by decide))
  | finite q => simp [JSNum.isFinite] at h

/-- C7 amended, witnessed at NaN. -/
theorem c7_nonfinite_fallback_witness :
    JSNum.isFinite JSNum.nan = false ∧
      (formatCoinAmount JSNum.nan = "0.00000000" ∨
        formatCoinAmount JSNum.nan = "Infinity" ∨
        formatCoinAmount JSNum.nan = "-Infinity") :=
  ⟨rfl, c7_nonfinite_fallback JSNum.nan rfl⟩

/-! ### Claim C10: the card mask reveals at most the first 3 characters -/

/-- C10: masking depends only on the length and the first 3 characters;
for inputs of length at least 3 the output is those 3 characters
followed by `'#'` only, of the same total length; shorter inputs give
the fixed `"###"`. -/
theorem c10_mask_card :
    (∀ a b : List Char, a.length = b.length → a.take 3 = b.take 3 →
        maskCardId a = maskCardId b) ∧
    (∀ a : List Char, 3 ≤ a.length →
        maskCardId a = a.take 3 ++ List.replicate (a.length - 3) '#' ∧
        (maskCardId a).length = a.length) ∧
    (∀ a : List Char, a.length < 3 → maskCardId a = ['#', '#', '#']) := by
  refine ⟨?_, ?_, ?_⟩
  · intro a b hlen htake
    unfold maskCardId
    rw [hlen, htake]
  · intro a hlen
    have hnot : ¬ a.length < 3 := not_lt.mpr hlen
    unfold maskCardId
    rw [if_neg hnot]
    refine ⟨rfl, ?_⟩
    rw [List.length_append, List.length_take, List.length_replicate]
    omega
  · intro a hlen
    unfold maskCardId
    rw [if_pos hlen]

/-! ## The PaymentQueue model

`PaymentQueue` (src/index.js lines 140-313) runs on the Node event loop:
the drain loop `process` suspends at every `await` (the two `db.run`
status updates, the settlement HTTP call inside `processItem`, the
caller-supplied continuations, and the inter-job `setTimeout`), and
externally arriving `add` calls interleave only at suspension points.
The model is a labelled transition system: a `Label` names either an
external `add` (its synchronous half, then the resumption of its
`INSERT`), or one resumption step of the drain loop.  All 'environment'
nondeterminism — the job kind, whether the settlement call succeeds,
which continuations exist and whether they throw — is carried by the
submitted item itself. -/

/-- Per-job template: the job kind plus the behaviour oracles resolving
the nondeterminism outside the queue's control — whether the remote
settlement call succeeds, whether the caller supplied success/failure
continuations (`onSuccess` / `onError`), and whether those throw. -/
structure ItemTmpl where
  kind : String
  settleOk : Bool
  hasSucc : Bool
  succThrows : Bool
  hasErr : Bool
  errThrows : Bool
deriving DecidableEq

/-- A submitted queue item: the template plus the id `add` assigned.
The model numbers items 0, 1, 2, … in submission order; the source's
`crypto.randomUUID()` text for item `n` is `uuidStr n` below.  (`add`
also sets `item.status = 'pending'` and `item.createdAt`; neither field
is ever read back by the source, so the model does not carry them.) -/
structure Item extends ItemTmpl where
  id : ℕ
deriving DecidableEq

/-- The error value that reaches the drain loop's catch block. -/
inductive JsError where
  /-- `processItem`'s default branch (line 234): unknown job type. -/
  | unknownKind (t : String)
  /-- The settlement transfer rejected the request or the HTTP call
  failed (lines 254, 281). -/
  | settlementError
  /-- The job's success continuation threw (line 199, caught at 202). -/
  | continuationError
deriving DecidableEq

/-- Observable events of one execution, in program order. -/
inductive Ev where
  /-- `add` pushed the item onto the in-memory FIFO. -/
  | submitted (it : Item)
  /-- The `UPDATE queue SET status = 'processing'` statement ran. -/
  | updProcessing (it : Item)
  /-- The Settlement Client HTTP call for the item was issued. -/
  | apiCall (it : Item)
  /-- The `UPDATE queue SET status = 'completed'` statement ran. -/
  | updCompleted (it : Item)
  /-- The success continuation returned normally. -/
  | succRet (it : Item)
  /-- The success continuation threw. -/
  | succThrew (it : Item)
  /-- The `UPDATE queue SET status = 'failed'` statement ran. -/
  | updFailed (it : Item) (e : JsError)
  /-- The failure continuation returned normally. -/
  | errRet (it : Item) (e : JsError)
  /-- The failure continuation threw: the exception escapes `process`. -/
  | errThrew (it : Item) (e : JsError)
deriving DecidableEq

/-- The drain loop's suspension points (each position is an `await` in
flight for the item being handled). -/
inductive Pos where
  /-- line 183: `UPDATE … 'processing'` in flight. -/
  | updP (it : Item)
  /-- line 189 via `processItem`: the settlement HTTP call in flight. -/
  | api (it : Item)
  /-- line 189 via `processItem`'s default branch: awaiting the already
  rejected promise of the unknown-kind throw. -/
  | rejected (it : Item)
  /-- line 192: `UPDATE … 'completed'` in flight. -/
  | updC (it : Item)
  /-- line 199: `await item.onSuccess(result)` in flight. -/
  | onSucc (it : Item)
  /-- line 205 (catch): `UPDATE … 'failed'` in flight. -/
  | updF (it : Item) (e : JsError)
  /-- line 211 (catch): `await item.onError(error)` in flight. -/
  | onErr (it : Item) (e : JsError)
  /-- line 216: the inter-job `setTimeout` delay in flight. -/
  | sleep
deriving DecidableEq

/-- State of the drain: not running, suspended at a position, or dead
because a failure continuation's exception rejected the `process()`
promise (nothing ever restarts it: `isProcessing` stays `true`). -/
inductive Drain where
  | idle
  | running (p : Pos)
  | stuck
deriving DecidableEq

/-- A row of the `queue` table: `id INTEGER PRIMARY KEY AUTOINCREMENT`
plus the inserted columns (modelled by the item whose `add` inserted the
row) and the mutable `status` / `processed_at` columns. -/
structure DbRow where
  rowid : ℕ
  insItem : Item
  status : String
  processedAt : Bool
deriving DecidableEq

/-- Model of `crypto.randomUUID()` for the n-th submitted item: a
hyphenated text (real UUIDs always contain hyphens and hex letters, so
they are never decimal integer literals). -/
def uuidStr (n : ℕ) : String := String.mk ('u' :: 'u' :: 'i' :: 'd' :: '-' :: (Nat.repr n).data)

/-- The numeric value SQLite's INTEGER affinity extracts from a bound
TEXT value when comparing it against the INTEGER `id` column: a decimal
digit string converts, anything else compares unequal to every
integer. -/
def sqlTextAsInt (s : String) : Option ℕ :=
  if s.data ≠ [] ∧ s.data.all (·.isDigit) then
    some (s.data.foldl (fun a c => a * 10 + (c.toNat - 48)) 0)
  else none

/-- `UPDATE queue SET status = ?, [processed_at = CURRENT_TIMESTAMP]
WHERE id = ?` with a TEXT value bound for `id`. -/
def updateQueueTable (tbl : List DbRow) (whereId : String) (newStatus : String)
    (setProcessed : Bool) : List DbRow :=
  tbl.map fun r =>
    if sqlTextAsInt whereId = some r.rowid then
      { r with status := newStatus, processedAt := r.processedAt || setProcessed }
    else r

/-- The whole model state: the `PaymentQueue` fields (`isProcessing`,
`queue`), the durable `queue` table, the id counters, the `add` calls
suspended at their `INSERT`, the drain position, and the event trace. -/
structure QState where
  isProcessing : Bool
  queue : List Item
  table : List DbRow
  nextRowid : ℕ
  nextId : ℕ
  pendingIns : List Item
  drain : Drain
  trace : List Ev
deriving DecidableEq

/-- The state at process start: empty queue, empty table (SQLite rowids
start at 1), drain not running. -/
def initState : QState :=
  { isProcessing := false, queue := [], table := [], nextRowid := 1,
    nextId := 0, pendingIns := [], drain := .idle, trace := [] }

/-- `processItem`'s dispatch (lines 228-235): the two known job types. -/
def knownType (t : String) : Bool := t == "card_to_id" || t == "card_to_card"

/-- One resumption of the drain loop: complete the `await` in flight at
position `p`, then run synchronously to the next suspension point,
following src/index.js lines 178-219 statement by statement. -/
def drainOne (p : Pos) (s : QState) : QState :=
  match p with
  | .updP it =>
      -- the 'processing' UPDATE completes; `processItem` dispatches:
      -- a known type issues the settlement call, the default branch
      -- throws without any call
      let tbl := updateQueueTable s.table (uuidStr it.id) "processing" false
      if knownType it.kind then
        { s with table := tbl,
                 trace := s.trace ++ [.updProcessing it, .apiCall it],
                 drain := .running (.api it) }
      else
        { s with table := tbl,
                 trace := s.trace ++ [.updProcessing it],
                 drain := .running (.rejected it) }
  | .api it =>
      -- the settlement call resolves: success continues the try block,
      -- failure (transport error or success flag false) throws
      if it.settleOk then { s with drain := .running (.updC it) }
      else { s with drain := .running (.updF it .settlementError) }
  | .rejected it =>
      { s with drain := .running (.updF it (.unknownKind it.kind)) }
  | .updC it =>
      -- the 'completed' UPDATE completes; `if (item.onSuccess)`
      let tbl := updateQueueTable s.table (uuidStr it.id) "completed" true
      let tr := s.trace ++ [.updCompleted it]
      if it.hasSucc then
        { s with table := tbl, trace := tr, drain := .running (.onSucc it) }
      else
        { s with table := tbl, trace := tr, drain := .running .sleep }
  | .onSucc it =>
      -- `await item.onSuccess(result)`: a throw here is caught by the
      -- same catch block and handled as a job failure
      if it.succThrows then
        { s with trace := s.trace ++ [.succThrew it],
                 drain := .running (.updF it .continuationError) }
      else
        { s with trace := s.trace ++ [.succRet it], drain := .running .sleep }
  | .updF it e =>
      -- the 'failed' UPDATE completes; `if (item.onError)`
      let tbl := updateQueueTable s.table (uuidStr it.id) "failed" true
      let tr := s.trace ++ [.updFailed it e]
      if it.hasErr then
        { s with table := tbl, trace := tr, drain := .running (.onErr it e) }
      else
        { s with table := tbl, trace := tr, drain := .running .sleep }
  | .onErr it e =>
      -- `await item.onError(error)` runs inside the catch block but
      -- under no try of its own: a throw rejects `process()` and
      -- `this.isProcessing = false` (line 219) is never reached
      if it.errThrows then
        { s with trace := s.trace ++ [.errThrew it e], drain := .stuck }
      else
        { s with trace := s.trace ++ [.errRet it e], drain := .running .sleep }
  | .sleep =>
      -- the delay elapses; the while condition re-checks the FIFO
      match s.queue with
      | [] => { s with isProcessing := false, drain := .idle }
      | it :: rest => { s with queue := rest, drain := .running (.updP it) }

/-- A scheduler decision: start an external `add(item)` (its synchronous
half: assign the id, push the item, start the `INSERT`), resume the
`k`-th suspended `INSERT` (running `add`'s tail: the `isProcessing`
check and possibly the synchronous head of `process()`), or resume the
drain loop. -/
inductive Label where
  | addStart (t : ItemTmpl)
  | addResume (k : ℕ)
  | drainStep
deriving DecidableEq

/-- `add`, lines 152-156: assign the id, push onto the FIFO, start the
`INSERT` (which records only guild/user/type/payload/status — not
`item.id`). -/
def stepAddStart (t : ItemTmpl) (s : QState) : QState :=
  let it : Item := ⟨t, s.nextId⟩
  { s with
    nextId := s.nextId + 1,
    queue := s.queue ++ [it],
    pendingIns := s.pendingIns ++ [it],
    trace := s.trace ++ [.submitted it] }

/-- `add`, lines 159-167: the `INSERT` of the `k`-th suspended `add`
completes (the row id is the table's autoincrement counter), then
`if (!this.isProcessing) this.process()`; a started `process` runs
synchronously through its guard, `isProcessing = true`, the while check
and the shift, up to its first `await`. -/
def stepAddResume (k : ℕ) (s : QState) : Option QState :=
  match s.pendingIns.get? k with
  | none => none
  | some it =>
      let s1 :=
        { s with
          pendingIns := s.pendingIns.eraseIdx k,
          table := s.table ++ [⟨s.nextRowid, it, "pending", false⟩],
          nextRowid := s.nextRowid + 1 }
      if s1.isProcessing then some s1
      else
        match s1.queue with
        | [] => some s1
        | it2 :: rest =>
            some { s1 with
                   isProcessing := true, queue := rest,
                   drain := .running (.updP it2) }

/-- One labelled step.  `none` means the label is not enabled. -/
def step : Label → QState → Option QState
  | .addStart t, s => some (stepAddStart t s)
  | .addResume k, s => stepAddResume k s
  | .drainStep, s =>
      match s.drain with
      | .running p => some (drainOne p s)
      | _ => none

/-- Run a list of scheduler decisions from a state. -/
def runFrom (s : QState) : List Label → Option QState
  | [] => some s
  | l :: ls =>
      match step l s with
      | none => none
      | some s1 => runFrom s1 ls

/-- Run a schedule from the initial state.  A state is reachable iff
some schedule reaches it. -/
def run (ls : List Label) : Option QState := runFrom initState ls

/-! ### Trace observations -/

/-- Is the event an `add`-side submission (as opposed to an event of the
drain loop)? -/
def Ev.isSubmitted : Ev → Bool
  | .submitted _ => true
  | _ => false

/-- The item an event belongs to. -/
def Ev.itemOf : Ev → Item
  | .submitted it => it
  | .updProcessing it => it
  | .apiCall it => it
  | .updCompleted it => it
  | .succRet it => it
  | .succThrew it => it
  | .updFailed it _ => it
  | .errRet it _ => it
  | .errThrew it _ => it

/-- The drain loop's events of a trace, in order. -/
def procEvts (tr : List Ev) : List Ev := tr.filter fun e => !e.isSubmitted

/-- The submitted items of a trace, in submission order. -/
def submittedItems (tr : List Ev) : List Item :=
  tr.filterMap fun e =>
    match e with
    | .submitted it => some it
    | _ => none

/-- The items for which a Settlement Client call was issued, in call
order. -/
def apiItems (tr : List Ev) : List Item :=
  tr.filterMap fun e =>
    match e with
    | .apiCall it => some it
    | _ => none

/-- Fold step computing which item ids currently hold `processing`
status: a 'processing' update enters, a terminal update leaves. -/
def procStep (cur : List ℕ) (e : Ev) : List ℕ :=
  match e with
  | .updProcessing it => cur ++ [it.id]
  | .updCompleted it => cur.filter (· != it.id)
  | .updFailed it _ => cur.filter (· != it.id)
  | _ => cur

/-- The item ids holding `processing` status after the trace. -/
def processingNow (tr : List Ev) : List ℕ := tr.foldl procStep []

/-- The status the event assigns to the given item, if any. -/
def statusEvFor (it : Item) : Ev → Option String
  | .updProcessing j => if j = it then some "processing" else none
  | .updCompleted j => if j = it then some "completed" else none
  | .updFailed j _ => if j = it then some "failed" else none
  | _ => none

/-- The sequence of statuses the processor assigned to the item. -/
def statusHistory (it : Item) (tr : List Ev) : List String :=
  tr.filterMap (statusEvFor it)

/-! ### The deterministic event block of one item

Once the drain loop shifts an item, the events it emits for that item
are fully determined by the item's oracle fields. -/

/-- The failure continuation's events in the catch block. -/
def errEvents (it : Item) (e : JsError) : List Ev :=
  if it.hasErr then
    (if it.errThrows then [.errThrew it e] else [.errRet it e])
  else []

/-- All drain-loop events of one item, in order, as the loop body
produces them. -/
def blockOf (it : Item) : List Ev :=
  if knownType it.kind then
    if it.settleOk then
      [.updProcessing it, .apiCall it, .updCompleted it] ++
        (if it.hasSucc then
          (if it.succThrows then
            [.succThrew it, .updFailed it .continuationError] ++
              errEvents it .continuationError
          else [.succRet it])
        else [])
    else
      [.updProcessing it, .apiCall it, .updFailed it .settlementError] ++
        errEvents it .settlementError
  else
    [.updProcessing it, .updFailed it (.unknownKind it.kind)] ++
      errEvents it (.unknownKind it.kind)

/-- The events emitted before the catch block's 'failed' UPDATE, read
off the error value. -/
def failLead (it : Item) : JsError → List Ev
  | .unknownKind _ => [.updProcessing it]
  | .settlementError => [.updProcessing it, .apiCall it]
  | .continuationError =>
      [.updProcessing it, .apiCall it, .updCompleted it, .succThrew it]

/-- The partial event block already emitted for the item the drain is
currently handling. -/
def curBlock : Drain → List Ev
  | .idle => []
  | .stuck => []
  | .running p =>
      match p with
      | .updP _ => []
      | .api it => [.updProcessing it, .apiCall it]
      | .rejected it => [.updProcessing it]
      | .updC it => [.updProcessing it, .apiCall it]
      | .onSucc it => [.updProcessing it, .apiCall it, .updCompleted it]
      | .updF it e => failLead it e
      | .onErr it e => failLead it e ++ [.updFailed it e]
      | .sleep => []

/-- The item currently being handled, if any. -/
def curItems : Drain → List Item
  | .running p =>
      match p with
      | .updP it => [it]
      | .api it => [it]
      | .rejected it => [it]
      | .updC it => [it]
      | .onSucc it => [it]
      | .updF it _ => [it]
      | .onErr it _ => [it]
      | .sleep => []
  | _ => []

/-- Whether a `process()` invocation is alive (its `isProcessing` flag
is set). -/
def drainActive : Drain → Bool
  | .idle => false
  | _ => true

/-- Which error values can stand at a catch-block position for an item:
they record the path that raised them. -/
def failOk (it : Item) : JsError → Prop
  | .unknownKind t => knownType it.kind = false ∧ t = it.kind
  | .settlementError => knownType it.kind = true ∧ it.settleOk = false
  | .continuationError =>
      knownType it.kind = true ∧ it.settleOk = true ∧
        it.hasSucc = true ∧ it.succThrows = true

/-- Consistency of a drain position with its item's oracle fields. -/
def posOk : Pos → Prop
  | .updP _ => True
  | .api it => knownType it.kind = true
  | .rejected it => knownType it.kind = false
  | .updC it => knownType it.kind = true ∧ it.settleOk = true
  | .onSucc it => knownType it.kind = true ∧ it.settleOk = true ∧ it.hasSucc = true
  | .updF it e => failOk it e
  | .onErr it e => failOk it e ∧ it.hasErr = true
  | .sleep => True

/-- Consistency of the drain state. -/
def drainOk : Drain → Prop
  | .running p => posOk p
  | _ => True

/-- The reachability invariant of the model:
* `flag`: `isProcessing` is exactly 'a `process()` invocation is alive';
* `consist`: the drain position matches its item's oracles;
* `shape`: the drain-loop events are the complete blocks of the already
  finished items (`done`), in the order they were shifted, followed by
  the partial block of the current item; and the submitted items are
  exactly `done`, then the current item, then the FIFO;
* `idsBound` / `idsNodup`: `add` hands out fresh ids;
* `tableStatus`: no `UPDATE` ever matches the inserted rows (their
  `id` is an autoincrement integer, every `WHERE id = ?` binds a UUID
  text), so all rows keep status 'pending' and a NULL `processed_at`. -/
structure Inv (s : QState) : Prop where
  flag : s.isProcessing = drainActive s.drain
  consist : drainOk s.drain
  shape : ∃ done : List Item,
      procEvts s.trace = done.flatMap blockOf ++ curBlock s.drain ∧
      submittedItems s.trace = done ++ curItems s.drain ++ s.queue
  idsBound : ∀ it ∈ submittedItems s.trace, it.id < s.nextId
  idsNodup : ((submittedItems s.trace).map Item.id).Nodup
  tableStatus : ∀ r ∈ s.table, r.status = "pending" ∧ r.processedAt = false

/-! ### Trace bookkeeping lemmas -/

theorem procEvts_append (t1 t2 : List Ev) :
    procEvts (t1 ++ t2) = procEvts t1 ++ procEvts t2 :=
  List.filter_append _ _

theorem submittedItems_append (t1 t2 : List Ev) :
    submittedItems (t1 ++ t2) = submittedItems t1 ++ submittedItems t2 :=
  List.filterMap_append _ _ _

theorem apiItems_append (t1 t2 : List Ev) :
    apiItems (t1 ++ t2) = apiItems t1 ++ apiItems t2 :=
  List.filterMap_append _ _ _

theorem statusHistory_append (it : Item) (t1 t2 : List Ev) :
    statusHistory it (t1 ++ t2) = statusHistory it t1 ++ statusHistory it t2 :=
  List.filterMap_append _ _ _

/-- No `UPDATE … WHERE id = <uuid text>` ever converts: the text starts
with a letter. -/
theorem sqlTextAsInt_uuid (n : ℕ) : sqlTextAsInt (uuidStr n) = none := by
  unfold sqlTextAsInt uuidStr
  rw [if_neg]
  rintro ⟨-, hall⟩
  simp [List.all_cons] at hall

/-- The status updates of the drain loop leave the table untouched. -/
theorem updateQueueTable_uuid (tbl : List DbRow) (n : ℕ) (st : String) (b : Bool) :
    updateQueueTable tbl (uuidStr n) st b = tbl := by
  unfold updateQueueTable
  induction tbl with
  | nil => rfl
  | cons r rs ih => simp only [List.map_cons, sqlTextAsInt_uuid, ih]; simp

theorem drainActive_eq_false (d : Drain) : drainActive d = false ↔ d = Drain.idle := by
  cases d <;> simp [drainActive]

attribute [simp] procEvts_append submittedItems_append apiItems_append
  statusHistory_append

@[simp] theorem procEvts_nil : procEvts [] = [] := rfl

@[simp] theorem procEvts_one_submitted (it : Item) :
    procEvts [Ev.submitted it] = [] := rfl

@[simp] theorem procEvts_one_updProcessing (it : Item) :
    procEvts [Ev.updProcessing it] = [Ev.updProcessing it] := rfl

@[simp] theorem procEvts_one_apiCall (it : Item) :
    procEvts [Ev.apiCall it] = [Ev.apiCall it] := rfl

@[simp] theorem procEvts_pair_upd_api (it : Item) :
    procEvts [Ev.updProcessing it, Ev.apiCall it] =
      [Ev.updProcessing it, Ev.apiCall it] := rfl

@[simp] theorem procEvts_one_updCompleted (it : Item) :
    procEvts [Ev.updCompleted it] = [Ev.updCompleted it] := rfl

@[simp] theorem procEvts_one_succRet (it : Item) :
    procEvts [Ev.succRet it] = [Ev.succRet it] := rfl

@[simp] theorem procEvts_one_succThrew (it : Item) :
    procEvts [Ev.succThrew it] = [Ev.succThrew it] := rfl

@[simp] theorem procEvts_one_updFailed (it : Item) (e : JsError) :
    procEvts [Ev.updFailed it e] = [Ev.updFailed it e] := rfl

@[simp] theorem procEvts_one_errRet (it : Item) (e : JsError) :
    procEvts [Ev.errRet it e] = [Ev.errRet it e] := rfl

@[simp] theorem procEvts_one_errThrew (it : Item) (e : JsError) :
    procEvts [Ev.errThrew it e] = [Ev.errThrew it e] := rfl

@[simp] theorem submittedItems_nil : submittedItems [] = [] := rfl

@[simp] theorem apiItems_nil : apiItems [] = [] := rfl

@[simp] theorem apiItems_one_submitted (it : Item) :
    apiItems [Ev.submitted it] = [] := rfl

@[simp] theorem submittedItems_one_submitted (it : Item) :
    submittedItems [Ev.submitted it] = [it] := rfl

@[simp] theorem submittedItems_one_updProcessing (it : Item) :
    submittedItems [Ev.updProcessing it] = [] := rfl

@[simp] theorem submittedItems_one_apiCall (it : Item) :
    submittedItems [Ev.apiCall it] = [] := rfl

@[simp] theorem submittedItems_pair_upd_api (it : Item) :
    submittedItems [Ev.updProcessing it, Ev.apiCall it] = [] := rfl

@[simp] theorem submittedItems_one_updCompleted (it : Item) :
    submittedItems [Ev.updCompleted it] = [] := rfl

@[simp] theorem submittedItems_one_succRet (it : Item) :
    submittedItems [Ev.succRet it] = [] := rfl

@[simp] theorem submittedItems_one_succThrew (it : Item) :
    submittedItems [Ev.succThrew it] = [] := rfl

@[simp] theorem submittedItems_one_updFailed (it : Item) (e : JsError) :
    submittedItems [Ev.updFailed it e] = [] := rfl

@[simp] theorem submittedItems_one_errRet (it : Item) (e : JsError) :
    submittedItems [Ev.errRet it e] = [] := rfl

@[simp] theorem submittedItems_one_errThrew (it : Item) (e : JsError) :
    submittedItems [Ev.errThrew it e] = [] := rfl

/-! ### Preservation of the invariant -/

theorem inv_addStart (t : ItemTmpl) (s : QState) (h : Inv s) :
    Inv (stepAddStart t s) := by
  obtain ⟨done, hp, hsub⟩ := h.shape
  unfold stepAddStart
  refine ⟨h.flag, h.consist, ⟨done, ?_, ?_⟩, ?_, ?_, h.tableStatus⟩
  · simpa [procEvts_append, procEvts, Ev.isSubmitted] using hp
  · rw [submittedItems_append, hsub]
    simp [submittedItems]
  · intro it hmem
    rw [submittedItems_append, List.mem_append] at hmem
    rcases hmem with hold | hnew
    · exact Nat.lt_succ_of_lt (h.idsBound it hold)
    · simp [submittedItems] at hnew
      subst hnew
      exact Nat.lt_succ_self _
  · rw [submittedItems_append]
    have hone : submittedItems [Ev.submitted (⟨t, s.nextId⟩ : Item)] =
        [(⟨t, s.nextId⟩ : Item)] := rfl
    rw [hone, List.map_append, List.nodup_append]
    refine ⟨h.idsNodup, List.nodup_singleton _, ?_⟩
    intro x hx hx2
    simp at hx2
    subst hx2
    rw [List.mem_map] at hx
    obtain ⟨it, hit, hid⟩ := hx
    have := h.idsBound it hit
    omega

theorem inv_addResume (k : ℕ) (s s' : QState) (h : Inv s)
    (hst : stepAddResume k s = some s') : Inv s' := by
  unfold stepAddResume at hst
  obtain ⟨done, hp, hsub⟩ := h.shape
  split at hst
  · exact absurd hst (by simp)
  · rename_i it hg
    simp only at hst
    split at hst
    · -- a drain is already active: only the table grows
      rename_i hip
      obtain rfl : _ = s' := Option.some_injective _ hst
      refine ⟨h.flag, h.consist, ⟨done, hp, hsub⟩, h.idsBound, h.idsNodup, ?_⟩
      intro r hr
      rw [List.mem_append] at hr
      rcases hr with hr | hr
      · exact h.tableStatus r hr
      · simp at hr
        subst hr
        exact ⟨rfl, rfl⟩
    · rename_i hip
      have hidle : s.drain = Drain.idle := by
        rw [← drainActive_eq_false, ← h.flag]
        simpa using hip
      split at hst
      · -- queue empty: process() returns at its guard
        rename_i hq
        obtain rfl : _ = s' := Option.some_injective _ hst
        refine ⟨h.flag, h.consist, ⟨done, hp, ?_⟩, h.idsBound, h.idsNodup, ?_⟩
        · rw [hsub, hq]
        · intro r hr
          rw [List.mem_append] at hr
          rcases hr with hr | hr
          · exact h.tableStatus r hr
          · simp at hr
            subst hr
            exact ⟨rfl, rfl⟩
      · -- queue non-empty: the drain starts on the head
        rename_i it2 rest hq
        obtain rfl : _ = s' := Option.some_injective _ hst
        refine ⟨rfl, trivial, ⟨done, ?_, ?_⟩, h.idsBound, h.idsNodup, ?_⟩
        · simpa [hidle, curBlock] using hp
        · rw [hsub, hidle, hq]
          simp [curItems]
        · intro r hr
          rw [List.mem_append] at hr
          rcases hr with hr | hr
          · exact h.tableStatus r hr
          · simp at hr
            subst hr
            exact ⟨rfl, rfl⟩

/-- On a failure path the item's full block is the emitted lead, the
'failed' update, and the failure continuation's events. -/
theorem blockOf_eq_failLead (it : Item) (e : JsError) (hf : failOk it e) :
    blockOf it = failLead it e ++ [Ev.updFailed it e] ++ errEvents it e := by
  cases e with
  | unknownKind t =>
      obtain ⟨hk, ht⟩ := hf
      subst ht
      simp [blockOf, failLead, hk]
  | settlementError =>
      obtain ⟨hk, hok⟩ := hf
      simp [blockOf, failLead, hk, hok]
  | continuationError =>
      obtain ⟨hk, hok, hs, hth⟩ := hf
      simp [blockOf, failLead, hk, hok, hs, hth]

theorem inv_drainOne (p : Pos) (s : QState) (h : Inv s)
    (hd : s.drain = Drain.running p) : Inv (drainOne p s) := by
  obtain ⟨done, hp, hsub⟩ := h.shape
  have hflag : s.isProcessing = true := by rw [h.flag, hd]; rfl
  have hcons : posOk p := by
    have hc := h.consist
    rw [hd] at hc
    exact hc
  rw [hd] at hp hsub
  cases p with
  | updP it =>
      simp only [drainOne, updateQueueTable_uuid]
      split
      · rename_i hk
        refine ⟨by simp [drainActive, hflag], hk, ⟨done, ?_, ?_⟩,
          by simpa using h.idsBound, by simpa using h.idsNodup, h.tableStatus⟩
        · simp [hp, curBlock]
        · simpa [curItems] using hsub
      · rename_i hk
        have hk2 : knownType it.kind = false := by simpa using hk
        refine ⟨by simp [drainActive, hflag], hk2, ⟨done, ?_, ?_⟩,
          by simpa using h.idsBound, by simpa using h.idsNodup, h.tableStatus⟩
        · simp [hp, curBlock]
        · simpa [curItems] using hsub
  | api it =>
      simp only [drainOne]
      split
      · rename_i hok
        exact ⟨by simp [drainActive, hflag], ⟨hcons, hok⟩,
          ⟨done, by simpa [curBlock] using hp, by simpa [curItems] using hsub⟩,
          h.idsBound, h.idsNodup, h.tableStatus⟩
      · rename_i hok
        have hok2 : it.settleOk = false := by simpa using hok
        exact ⟨by simp [drainActive, hflag], ⟨hcons, hok2⟩,
          ⟨done, by simpa [curBlock, failLead] using hp,
            by simpa [curItems] using hsub⟩,
          h.idsBound, h.idsNodup, h.tableStatus⟩
  | rejected it =>
      simp only [drainOne]
      exact ⟨by simp [drainActive, hflag], ⟨hcons, rfl⟩,
        ⟨done, by simpa [curBlock, failLead] using hp,
          by simpa [curItems] using hsub⟩,
        h.idsBound, h.idsNodup, h.tableStatus⟩
  | updC it =>
      obtain ⟨hk, hok⟩ := hcons
      simp only [drainOne, updateQueueTable_uuid]
      split
      · rename_i hs
        refine ⟨by simp [drainActive, hflag], ⟨hk, hok, hs⟩, ⟨done, ?_, ?_⟩,
          by simpa using h.idsBound, by simpa using h.idsNodup, h.tableStatus⟩
        · simp [hp, curBlock, List.append_assoc]
        · simpa [curItems] using hsub
      · rename_i hs
        have hs2 : it.hasSucc = false := by simpa using hs
        have hb : blockOf it =
            [Ev.updProcessing it, Ev.apiCall it, Ev.updCompleted it] := by
          simp [blockOf, hk, hok, hs2]
        refine ⟨by simp [drainActive, hflag], trivial, ⟨done ++ [it], ?_, ?_⟩,
          by simpa using h.idsBound, by simpa using h.idsNodup, h.tableStatus⟩
        · simp [hp, curBlock, hb, List.flatMap_append, List.append_assoc]
        · simp only [curItems] at hsub ⊢
          simp [hsub]
  | onSucc it =>
      obtain ⟨hk, hok, hs⟩ := hcons
      simp only [drainOne]
      split
      · rename_i hth
        refine ⟨by simp [drainActive, hflag], ⟨hk, hok, hs, hth⟩, ⟨done, ?_, ?_⟩,
          by simpa using h.idsBound, by simpa using h.idsNodup, h.tableStatus⟩
        · simp [hp, curBlock, failLead, List.append_assoc]
        · simpa [curItems] using hsub
      · rename_i hth
        have hth2 : it.succThrows = false := by simpa using hth
        have hb : blockOf it = [Ev.updProcessing it, Ev.apiCall it,
            Ev.updCompleted it, Ev.succRet it] := by
          simp [blockOf, hk, hok, hs, hth2]
        refine ⟨by simp [drainActive, hflag], trivial, ⟨done ++ [it], ?_, ?_⟩,
          by simpa using h.idsBound, by simpa using h.idsNodup, h.tableStatus⟩
        · simp [hp, curBlock, hb, List.flatMap_append, List.append_assoc]
        · simp only [curItems] at hsub ⊢
          simp [hsub]
  | updF it e =>
      simp only [drainOne, updateQueueTable_uuid]
      split
      · rename_i he
        refine ⟨by simp [drainActive, hflag], ⟨hcons, he⟩, ⟨done, ?_, ?_⟩,
          by simpa using h.idsBound, by simpa using h.idsNodup, h.tableStatus⟩
        · simp [hp, curBlock, List.append_assoc]
        · simpa [curItems] using hsub
      · rename_i he
        have he2 : it.hasErr = false := by simpa using he
        have hb : blockOf it = failLead it e ++ [Ev.updFailed it e] := by
          rw [blockOf_eq_failLead it e hcons]
          simp [errEvents, he2]
        refine ⟨by simp [drainActive, hflag], trivial, ⟨done ++ [it], ?_, ?_⟩,
          by simpa using h.idsBound, by simpa using h.idsNodup, h.tableStatus⟩
        · simp [hp, curBlock, hb, List.flatMap_append, List.append_assoc]
        · simp only [curItems] at hsub ⊢
          simp [hsub]
  | onErr it e =>
      obtain ⟨hf, he⟩ := hcons
      simp only [drainOne]
      split
      · rename_i ht
        have hb : blockOf it =
            failLead it e ++ [Ev.updFailed it e] ++ [Ev.errThrew it e] := by
          rw [blockOf_eq_failLead it e hf]
          simp [errEvents, he, ht]
        refine ⟨by simp [drainActive, hflag], trivial, ⟨done ++ [it], ?_, ?_⟩,
          by simpa using h.idsBound, by simpa using h.idsNodup, h.tableStatus⟩
        · simp [hp, curBlock, hb, List.flatMap_append, List.append_assoc]
        · simp only [curItems] at hsub ⊢
          simp [hsub]
      · rename_i ht
        have ht2 : it.errThrows = false := by simpa using ht
        have hb : blockOf it =
            failLead it e ++ [Ev.updFailed it e] ++ [Ev.errRet it e] := by
          rw [blockOf_eq_failLead it e hf]
          simp [errEvents, he, ht2]
        refine ⟨by simp [drainActive, hflag], trivial, ⟨done ++ [it], ?_, ?_⟩,
          by simpa using h.idsBound, by simpa using h.idsNodup, h.tableStatus⟩
        · simp [hp, curBlock, hb, List.flatMap_append, List.append_assoc]
        · simp only [curItems] at hsub ⊢
          simp [hsub]
  | sleep =>
      cases hq : s.queue with
      | nil =>
          simp only [drainOne, hq]
          refine ⟨by simp [drainActive], trivial, ⟨done, ?_, ?_⟩,
            h.idsBound, h.idsNodup, h.tableStatus⟩
          · simpa [curBlock] using hp
          · rw [hq] at hsub
            simpa [curItems] using hsub
      | cons it rest =>
          simp only [drainOne, hq]
          refine ⟨by simp [drainActive, hflag], trivial, ⟨done, ?_, ?_⟩,
            h.idsBound, h.idsNodup, h.tableStatus⟩
          · simpa [curBlock] using hp
          · rw [hq] at hsub
            simp only [curItems] at hsub ⊢
            simp [hsub]

theorem inv_step (l : Label) (s s' : QState) (h : Inv s)
    (hst : step l s = some s') : Inv s' := by
  cases l with
  | addStart t =>
      have he : step (Label.addStart t) s = some (stepAddStart t s) := rfl
      rw [he] at hst
      obtain rfl : _ = s' := Option.some_injective _ hst
      exact inv_addStart t s h
  | addResume k =>
      exact inv_addResume k s s' h hst
  | drainStep =>
      have he : step Label.drainStep s =
          (match s.drain with
            | Drain.running p => some (drainOne p s)
            | _ => none) := rfl
      rw [he] at hst
      cases hd : s.drain with
      | idle => rw [hd] at hst; simp at hst
      | stuck => rw [hd] at hst; simp at hst
      | running p =>
          rw [hd] at hst
          obtain rfl : drainOne p s = s' := Option.some_injective _ hst
          exact inv_drainOne p s h hd

theorem inv_initState : Inv initState := by
  refine ⟨rfl, trivial, ⟨[], rfl, rfl⟩, ?_, ?_, ?_⟩ <;>
    simp [initState, submittedItems]

theorem inv_runFrom (ls : List Label) (s s' : QState) (h : Inv s)
    (hr : runFrom s ls = some s') : Inv s' := by
  induction ls generalizing s with
  | nil =>
      unfold runFrom at hr
      obtain rfl : _ = s' := Option.some_injective _ hr
      exact h
  | cons l tl ih =>
      unfold runFrom at hr
      cases hst : step l s with
      | none => rw [hst] at hr; exact absurd hr (by simp)
      | some s1 =>
          rw [hst] at hr
          simp only at hr
          exact ih s1 (inv_step l s s1 h hst) hr

/-- Every reachable state satisfies the invariant. -/
theorem inv_run (ls : List Label) (s : QState) (hr : run ls = some s) : Inv s :=
  inv_runFrom ls initState s inv_initState hr

/-! ### Reading the guarantees off the invariant -/

theorem foldl_procStep_filter (tr : List Ev) (a : List ℕ) :
    tr.foldl procStep a = (procEvts tr).foldl procStep a := by
  induction tr generalizing a with
  | nil => rfl
  | cons e tl ih =>
      cases e <;>
        simp [procEvts, List.filter_cons, Ev.isSubmitted, procStep, ih]

theorem filterMap_procEvts {α : Type} (f : Ev → Option α)
    (hf : ∀ it, f (Ev.submitted it) = none) (tr : List Ev) :
    tr.filterMap f = (procEvts tr).filterMap f := by
  induction tr with
  | cons e tl ih =>
      cases e <;>
        simp [procEvts, List.filter_cons, Ev.isSubmitted, List.filterMap_cons, hf, ih]
  | nil => rfl

/-- A finished item's block leaves no id in `processing` state. -/
theorem procStep_blockOf (it : Item) : (blockOf it).foldl procStep [] = [] := by
  by_cases hk : knownType it.kind = true <;>
    by_cases hok : it.settleOk = true <;>
      by_cases hs : it.hasSucc = true <;>
        by_cases hth : it.succThrows = true <;>
          by_cases he : it.hasErr = true <;>
            by_cases ht : it.errThrows = true <;>
              simp_all [blockOf, errEvents, procStep]

theorem procStep_flatMap (L : List Item) :
    (L.flatMap blockOf).foldl procStep [] = [] := by
  induction L with
  | nil => rfl
  | cons d ds ih =>
      rw [List.flatMap_cons, List.foldl_append, procStep_blockOf]
      exact ih

/-- The partial block of the in-flight item leaves at most one id in
`processing` state. -/
theorem procStep_curBlock (d : Drain) :
    (curBlock d).foldl procStep [] = [] ∨
      ∃ i, (curBlock d).foldl procStep [] = [i] := by
  cases d with
  | idle => exact Or.inl rfl
  | stuck => exact Or.inl rfl
  | running p =>
      cases p with
      | updP it => exact Or.inl rfl
      | api it => exact Or.inr ⟨it.id, rfl⟩
      | rejected it => exact Or.inr ⟨it.id, rfl⟩
      | updC it => exact Or.inr ⟨it.id, rfl⟩
      | onSucc it => exact Or.inl (by simp [curBlock, procStep])
      | updF it e =>
          cases e with
          | unknownKind t => exact Or.inr ⟨it.id, rfl⟩
          | settlementError => exact Or.inr ⟨it.id, rfl⟩
          | continuationError => exact Or.inl (by simp [curBlock, failLead, procStep])
      | onErr it e =>
          cases e with
          | unknownKind t => exact Or.inl (by simp [curBlock, failLead, procStep])
          | settlementError => exact Or.inl (by simp [curBlock, failLead, procStep])
          | continuationError => exact Or.inl (by simp [curBlock, failLead, procStep])
      | sleep => exact Or.inl rfl

/-! ### Claim C1: at most one job in `processing` state -/

/-- C1: in every reachable state, at most one job id holds `processing`
status (entered by its 'processing' update, left by its terminal
update). -/
theorem c1_single_processing (ls : List Label) (s : QState)
    (hr : run ls = some s) : (processingNow s.trace).length ≤ 1 := by
  obtain ⟨done, hp, -⟩ := (inv_run ls s hr).shape
  unfold processingNow
  rw [foldl_procStep_filter, hp, List.foldl_append, procStep_flatMap]
  rcases procStep_curBlock s.drain with h0 | ⟨i, h1⟩
  · rw [h0]
    simp
  · rw [h1]
    simp

theorem apiItems_procEvts (tr : List Ev) : apiItems tr = apiItems (procEvts tr) :=
  filterMap_procEvts _ (fun _ => rfl) tr

theorem statusHistory_procEvts (it : Item) (tr : List Ev) :
    statusHistory it tr = statusHistory it (procEvts tr) :=
  filterMap_procEvts _ (fun _ => rfl) tr

/-- A block issues exactly one settlement call for a known-kind item
and none otherwise. -/
theorem apiItems_blockOf (it : Item) :
    apiItems (blockOf it) =
      if knownType it.kind = true then [it] else [] := by
  by_cases hk : knownType it.kind = true <;>
    by_cases hok : it.settleOk = true <;>
      by_cases hs : it.hasSucc = true <;>
        by_cases hth : it.succThrows = true <;>
          by_cases he : it.hasErr = true <;>
            by_cases ht : it.errThrows = true <;>
              simp_all [blockOf, errEvents, apiItems]

theorem apiItems_flatMap (L : List Item)
    (h : ∀ it ∈ L, knownType it.kind = true) :
    apiItems (L.flatMap blockOf) = L := by
  induction L with
  | nil => rfl
  | cons d ds ih =>
      rw [List.flatMap_cons, apiItems_append, apiItems_blockOf,
        if_pos (h d (List.mem_cons_self d ds))]
      rw [ih fun it hit => h it (List.mem_cons_of_mem d hit)]
      rfl

/-! ### Claim C2: strict FIFO, exactly one call per job, in order -/

/-- C2: in every reachable quiescent state (drain idle, FIFO empty) of
an execution whose submitted jobs all have known kinds, the Settlement
Client received exactly one call per submitted job, in submission
order; moreover the drain-loop event trace is exactly the concatenation
of the jobs' complete event blocks in submission order — job N's call,
status updates and continuation events all lie before job N+1's call. -/
theorem c2_fifo_processing (ls : List Label) (s : QState)
    (hr : run ls = some s) (hidle : s.drain = Drain.idle)
    (hq : s.queue = [])
    (hk : ∀ it ∈ submittedItems s.trace, knownType it.kind = true) :
    apiItems s.trace = submittedItems s.trace ∧
    procEvts s.trace = (submittedItems s.trace).flatMap blockOf := by
  obtain ⟨done, hp, hsub⟩ := (inv_run ls s hr).shape
  rw [hidle] at hp hsub
  rw [hq] at hsub
  simp only [curBlock, curItems, List.append_nil] at hp hsub
  subst hsub
  exact ⟨by rw [apiItems_procEvts, hp, apiItems_flatMap _ hk], hp⟩

/-! ### Claim C9: unknown kinds never reach the Settlement Client -/

theorem apiCall_mem_blockOf (it it' : Item) (hm : Ev.apiCall it ∈ blockOf it') :
    it = it' ∧ knownType it'.kind = true := by
  by_cases hk : knownType it'.kind = true <;>
    by_cases hok : it'.settleOk = true <;>
      by_cases hs : it'.hasSucc = true <;>
        by_cases hth : it'.succThrows = true <;>
          by_cases he : it'.hasErr = true <;>
            by_cases ht : it'.errThrows = true <;>
              simp_all [blockOf, errEvents]

theorem updFailed_mem_blockOf (it it' : Item) (e : JsError)
    (hm : Ev.updFailed it e ∈ blockOf it') : it = it' ∧ failOk it' e := by
  by_cases hk : knownType it'.kind = true <;>
    by_cases hok : it'.settleOk = true <;>
      by_cases hs : it'.hasSucc = true <;>
        by_cases hth : it'.succThrows = true <;>
          by_cases he : it'.hasErr = true <;>
            by_cases ht : it'.errThrows = true <;>
              simp_all [blockOf, errEvents, failOk]

theorem errRet_mem_blockOf (it it' : Item) (e : JsError)
    (hm : Ev.errRet it e ∈ blockOf it') : it = it' ∧ failOk it' e := by
  by_cases hk : knownType it'.kind = true <;>
    by_cases hok : it'.settleOk = true <;>
      by_cases hs : it'.hasSucc = true <;>
        by_cases hth : it'.succThrows = true <;>
          by_cases he : it'.hasErr = true <;>
            by_cases ht : it'.errThrows = true <;>
              simp_all [blockOf, errEvents, failOk]

theorem apiCall_mem_curBlock (d : Drain) (hok : drainOk d) (it : Item)
    (hm : Ev.apiCall it ∈ curBlock d) : knownType it.kind = true := by
  cases d with
  | idle => simp [curBlock] at hm
  | stuck => simp [curBlock] at hm
  | running p =>
      cases p with
      | updP j => simp [curBlock] at hm
      | api j =>
          simp [curBlock] at hm
          obtain ⟨rfl⟩ := hm
          exact hok
      | rejected j => simp [curBlock] at hm
      | updC j =>
          simp [curBlock] at hm
          obtain ⟨rfl⟩ := hm
          exact hok.1
      | onSucc j =>
          simp [curBlock] at hm
          obtain ⟨rfl⟩ := hm
          exact hok.1
      | updF j e =>
          cases e with
          | unknownKind t => simp [curBlock, failLead] at hm
          | settlementError =>
              simp [curBlock, failLead] at hm
              obtain ⟨rfl⟩ := hm
              exact hok.1
          | continuationError =>
              simp [curBlock, failLead] at hm
              obtain ⟨rfl⟩ := hm
              exact hok.1
      | onErr j e =>
          cases e with
          | unknownKind t => simp [curBlock, failLead] at hm
          | settlementError =>
              simp [curBlock, failLead] at hm
              obtain ⟨rfl⟩ := hm
              exact hok.1.1
          | continuationError =>
              simp [curBlock, failLead] at hm
              obtain ⟨rfl⟩ := hm
              exact hok.1.1
      | sleep => simp [curBlock] at hm

theorem updFailed_mem_curBlock (d : Drain) (hok : drainOk d) (it : Item)
    (e : JsError) (hm : Ev.updFailed it e ∈ curBlock d) : failOk it e := by
  cases d with
  | idle => simp [curBlock] at hm
  | stuck => simp [curBlock] at hm
  | running p =>
      cases p with
      | updP j => simp [curBlock] at hm
      | api j => simp [curBlock] at hm
      | rejected j => simp [curBlock] at hm
      | updC j => simp [curBlock] at hm
      | onSucc j => simp [curBlock] at hm
      | updF j e2 =>
          cases e2 <;> simp [curBlock, failLead] at hm
      | onErr j e2 =>
          cases e2 <;> simp [curBlock, failLead] at hm <;>
            (obtain ⟨rfl, rfl⟩ := hm; exact hok.1)
      | sleep => simp [curBlock] at hm

theorem errRet_mem_curBlock (d : Drain) (it : Item) (e : JsError)
    (hm : Ev.errRet it e ∈ curBlock d) : False := by
  cases d with
  | idle => simp [curBlock] at hm
  | stuck => simp [curBlock] at hm
  | running p =>
      cases p with
      | updP j => simp [curBlock] at hm
      | api j => simp [curBlock] at hm
      | rejected j => simp [curBlock] at hm
      | updC j => simp [curBlock] at hm
      | onSucc j => simp [curBlock] at hm
      | updF j e2 => cases e2 <;> simp [curBlock, failLead] at hm
      | onErr j e2 => cases e2 <;> simp [curBlock, failLead] at hm
      | sleep => simp [curBlock] at hm

/-- C9: a submitted job whose kind is neither `card_to_id` nor
`card_to_card` never triggers a Settlement Client call, and every
failure recorded or delivered for it carries the unknown-kind error of
`processItem`'s default branch. -/
theorem c9_unknown_kind (ls : List Label) (s : QState) (hr : run ls = some s)
    (it : Item) (hsubm : it ∈ submittedItems s.trace)
    (hk : knownType it.kind = false) :
    Ev.apiCall it ∉ s.trace ∧
    (∀ e, Ev.updFailed it e ∈ s.trace → e = JsError.unknownKind it.kind) ∧
    (∀ e, Ev.errRet it e ∈ s.trace → e = JsError.unknownKind it.kind) := by
  have hinv := inv_run ls s hr
  obtain ⟨done, hp, hsub⟩ := hinv.shape
  have hfromTrace : ∀ e : Ev, e ∈ s.trace → e.isSubmitted = false →
      (∃ it' ∈ done, e ∈ blockOf it') ∨ e ∈ curBlock s.drain := by
    intro e hmem hns
    have h1 : e ∈ procEvts s.trace :=
      List.mem_filter.mpr ⟨hmem, by simp [hns]⟩
    rw [hp] at h1
    rcases List.mem_append.mp h1 with h2 | h2
    · exact Or.inl (List.mem_flatMap.mp h2)
    · exact Or.inr h2
  refine ⟨?_, ?_, ?_⟩
  · intro hmem
    rcases hfromTrace _ hmem rfl with ⟨it', -, hm⟩ | hm
    · obtain ⟨rfl, hk2⟩ := apiCall_mem_blockOf it it' hm
      rw [hk] at hk2
      cases hk2
    · have := apiCall_mem_curBlock s.drain hinv.consist it hm
      rw [hk] at this
      cases this
  · intro e hmem
    have hfo : failOk it e := by
      rcases hfromTrace _ hmem rfl with ⟨it', -, hm⟩ | hm
      · obtain ⟨rfl, hfo⟩ := updFailed_mem_blockOf it it' e hm
        exact hfo
      · exact updFailed_mem_curBlock s.drain hinv.consist it e hm
    cases e with
    | unknownKind t => rw [hfo.2]
    | settlementError => exact absurd hfo.1 (by simp [hk])
    | continuationError => exact absurd hfo.1 (by simp [hk])
  · intro e hmem
    have hfo : failOk it e := by
      rcases hfromTrace _ hmem rfl with ⟨it', -, hm⟩ | hm
      · obtain ⟨rfl, hfo⟩ := errRet_mem_blockOf it it' e hm
        exact hfo
      · exact absurd hm (fun hm2 => errRet_mem_curBlock s.drain it e hm2)
    cases e with
    | unknownKind t => rw [hfo.2]
    | settlementError => exact absurd hfo.1 (by simp [hk])
    | continuationError => exact absurd hfo.1 (by simp [hk])

/-! ### Claim C5: status transitions -/

/-- The status sequence a finished item's block writes for it. -/
def statusesOf (it : Item) : List String :=
  if knownType it.kind then
    if it.settleOk then
      ["processing", "completed"] ++
        (if it.hasSucc && it.succThrows then ["failed"] else [])
    else ["processing", "failed"]
  else ["processing", "failed"]

/-- The status sequences the spec allows: `pending` (no update yet),
then `processing`, then one terminal status. -/
def okHistories : List (List String) :=
  [[], ["processing"], ["processing", "completed"], ["processing", "failed"]]

theorem statusHistory_blockOf_self (it : Item) :
    statusHistory it (blockOf it) = statusesOf it := by
  by_cases hk : knownType it.kind = true <;>
    by_cases hok : it.settleOk = true <;>
      by_cases hs : it.hasSucc = true <;>
        by_cases hth : it.succThrows = true <;>
          by_cases he : it.hasErr = true <;>
            by_cases ht : it.errThrows = true <;>
              simp_all [blockOf, errEvents, statusHistory, statusEvFor, statusesOf]

theorem statusHistory_blockOf_other (it it' : Item) (hne : it' ≠ it) :
    statusHistory it (blockOf it') = [] := by
  by_cases hk : knownType it'.kind = true <;>
    by_cases hok : it'.settleOk = true <;>
      by_cases hs : it'.hasSucc = true <;>
        by_cases hth : it'.succThrows = true <;>
          by_cases he : it'.hasErr = true <;>
            by_cases ht : it'.errThrows = true <;>
              simp_all [blockOf, errEvents, statusHistory, statusEvFor]

theorem statusHistory_flatMap (it : Item) (L : List Item) (hnd : L.Nodup) :
    statusHistory it (L.flatMap blockOf) =
      if it ∈ L then statusesOf it else [] := by
  induction L with
  | nil => simp [statusHistory]
  | cons d ds ih =>
      obtain ⟨hd, hds⟩ := List.nodup_cons.mp hnd
      rw [List.flatMap_cons, statusHistory_append, ih hds]
      by_cases hde : d = it
      · subst hde
        rw [statusHistory_blockOf_self, if_neg hd, if_pos (List.mem_cons_self d ds)]
        simp
      · rw [statusHistory_blockOf_other it d hde]
        by_cases hmem : it ∈ ds
        · rw [if_pos hmem, if_pos (List.mem_cons_of_mem d hmem)]
          simp
        · rw [if_neg hmem, if_neg ?_]
          · simp
          · intro hc
            rcases List.mem_cons.mp hc with hc | hc
            · exact hde hc.symm
            · exact hmem hc

theorem statusHistory_curBlock_other (it : Item) (d : Drain)
    (hne : ∀ j ∈ curItems d, j ≠ it) : statusHistory it (curBlock d) = [] := by
  cases d with
  | idle => rfl
  | stuck => rfl
  | running p =>
      cases p with
      | updP j => rfl
      | api j =>
          have := hne j (by simp [curItems])
          simp [curBlock, statusHistory, statusEvFor, this]
      | rejected j =>
          have := hne j (by simp [curItems])
          simp [curBlock, statusHistory, statusEvFor, this]
      | updC j =>
          have := hne j (by simp [curItems])
          simp [curBlock, statusHistory, statusEvFor, this]
      | onSucc j =>
          have := hne j (by simp [curItems])
          simp [curBlock, statusHistory, statusEvFor, this]
      | updF j e =>
          have := hne j (by simp [curItems])
          cases e <;> simp [curBlock, failLead, statusHistory, statusEvFor, this]
      | onErr j e =>
          have := hne j (by simp [curItems])
          cases e <;> simp [curBlock, failLead, statusHistory, statusEvFor, this]
      | sleep => rfl

theorem statusHistory_curBlock_mem (it : Item) (d : Drain) (hok : drainOk d)
    (hth : it.succThrows = false) :
    statusHistory it (curBlock d) ∈ okHistories := by
  cases d with
  | idle => simp [curBlock, statusHistory, okHistories]
  | stuck => simp [curBlock, statusHistory, okHistories]
  | running p =>
      cases p with
      | updP j => simp [curBlock, statusHistory, okHistories]
      | api j =>
          by_cases hj : j = it <;>
            simp [curBlock, statusHistory, statusEvFor, hj, okHistories]
      | rejected j =>
          by_cases hj : j = it <;>
            simp [curBlock, statusHistory, statusEvFor, hj, okHistories]
      | updC j =>
          by_cases hj : j = it <;>
            simp [curBlock, statusHistory, statusEvFor, hj, okHistories]
      | onSucc j =>
          by_cases hj : j = it <;>
            simp [curBlock, statusHistory, statusEvFor, hj, okHistories]
      | updF j e =>
          cases e with
          | unknownKind t =>
              by_cases hj : j = it <;>
                simp [curBlock, failLead, statusHistory, statusEvFor, hj, okHistories]
          | settlementError =>
              by_cases hj : j = it <;>
                simp [curBlock, failLead, statusHistory, statusEvFor, hj, okHistories]
          | continuationError =>
              by_cases hj : j = it
              · subst hj
                exact absurd hok.2.2.2 (by simp [hth])
              · simp [curBlock, failLead, statusHistory, statusEvFor, hj, okHistories]
      | onErr j e =>
          cases e with
          | unknownKind t =>
              by_cases hj : j = it <;>
                simp [curBlock, failLead, statusHistory, statusEvFor, hj, okHistories]
          | settlementError =>
              by_cases hj : j = it <;>
                simp [curBlock, failLead, statusHistory, statusEvFor, hj, okHistories]
          | continuationError =>
              by_cases hj : j = it
              · subst hj
                exact absurd hok.1.2.2.2 (by simp [hth])
              · simp [curBlock, failLead, statusHistory, statusEvFor, hj, okHistories]
      | sleep => simp [curBlock, statusHistory, okHistories]

theorem statusesOf_mem (it : Item) (h : it.succThrows = false) :
    statusesOf it ∈ okHistories := by
  by_cases hk : knownType it.kind = true <;>
    by_cases hok : it.settleOk = true <;>
      simp [statusesOf, hk, hok, h, okHistories]

/-- C5 amended: provided no success continuation throws, every job's
status history follows `pending → processing → completed | failed` and
nothing else.  (The unamended claim quantifies over all continuation
behaviours; a throwing success continuation makes the processor mark
the job `completed` and then `failed`.) -/
theorem c5_monotonic_amended (ls : List Label) (s : QState)
    (hr : run ls = some s)
    (hth : ∀ it ∈ submittedItems s.trace, it.succThrows = false)
    (it : Item) : statusHistory it s.trace ∈ okHistories := by
  have hinv := inv_run ls s hr
  obtain ⟨done, hp, hsub⟩ := hinv.shape
  have hnd := hinv.idsNodup
  rw [hsub] at hnd
  rw [List.map_append, List.map_append, List.nodup_append, List.nodup_append] at hnd
  obtain ⟨⟨hnd1, -, hdc⟩, -, -⟩ := hnd
  have hdone_nd : done.Nodup := List.Nodup.of_map Item.id hnd1
  rw [statusHistory_procEvts, hp, statusHistory_append]
  by_cases hmem : it ∈ done
  · have hcur_ne : ∀ j ∈ curItems s.drain, j ≠ it := by
      intro j hj hji
      subst hji
      exact hdc (List.mem_map_of_mem Item.id hmem)
        (List.mem_map_of_mem Item.id hj)
    rw [statusHistory_flatMap it done hdone_nd, if_pos hmem,
      statusHistory_curBlock_other it _ hcur_ne, List.append_nil]
    refine statusesOf_mem it (hth it ?_)
    rw [hsub]
    exact List.mem_append.mpr (Or.inl (List.mem_append.mpr (Or.inl hmem)))
  · rw [statusHistory_flatMap it done hdone_nd, if_neg hmem, List.nil_append]
    by_cases hcur : ∀ j ∈ curItems s.drain, j ≠ it
    · rw [statusHistory_curBlock_other it _ hcur]
      decide
    · push_neg at hcur
      obtain ⟨j, hj, rfl⟩ := hcur
      refine statusHistory_curBlock_mem j s.drain hinv.consist (hth j ?_)
      rw [hsub]
      exact List.mem_append.mpr (Or.inl (List.mem_append.mpr (Or.inr hj)))

/-! ### Concrete executions -/

/-- A well-behaved transfer job: known kind, settlement succeeds, no
continuations. -/
def tmplPlain : ItemTmpl := ⟨"card_to_id", true, false, false, false, false⟩

/-- A job whose settlement succeeds but whose success continuation
throws. -/
def tmplSuccThrows : ItemTmpl := ⟨"card_to_id", true, true, true, false, false⟩

/-- A job whose settlement fails and whose failure continuation
throws. -/
def tmplFailCrash : ItemTmpl := ⟨"card_to_id", false, false, false, true, true⟩

/-- A job constructed with an unknown kind. -/
def tmplUnknown : ItemTmpl := ⟨"mystery", true, false, false, false, false⟩

def c1RunLabels : List Label :=
  [.addStart tmplPlain, .addResume 0, .drainStep, .drainStep, .drainStep,
   .drainStep]

/-- C1, witnessed on a completed one-job execution. -/
theorem c1_single_processing_witness :
    (processingNow ((run c1RunLabels).getD initState).trace).length ≤ 1 :=
  c1_single_processing c1RunLabels ((run c1RunLabels).getD initState) (by decide)

def c2RunLabels : List Label :=
  [.addStart tmplPlain, .addStart tmplPlain, .addResume 0, .addResume 0,
   .drainStep, .drainStep, .drainStep, .drainStep, .drainStep, .drainStep,
   .drainStep, .drainStep]

/-- C2, witnessed on a quiescent two-job execution. -/
theorem c2_fifo_processing_witness :
    apiItems ((run c2RunLabels).getD initState).trace =
      submittedItems ((run c2RunLabels).getD initState).trace ∧
    procEvts ((run c2RunLabels).getD initState).trace =
      (submittedItems ((run c2RunLabels).getD initState).trace).flatMap blockOf :=
  c2_fifo_processing c2RunLabels ((run c2RunLabels).getD initState)
    (by decide) (by decide) (by decide) (by decide)

def c5RunLabels : List Label :=
  [.addStart tmplPlain, .addResume 0, .drainStep, .drainStep, .drainStep,
   .drainStep]

/-- C5 amended, witnessed on a completed one-job execution. -/
theorem c5_monotonic_amended_witness :
    statusHistory ⟨tmplPlain, 0⟩ ((run c5RunLabels).getD initState).trace ∈
      okHistories :=
  c5_monotonic_amended c5RunLabels ((run c5RunLabels).getD initState)
    (by decide) (by decide) ⟨tmplPlain, 0⟩

def c5BadLabels : List Label :=
  [.addStart tmplSuccThrows, .addResume 0, .drainStep, .drainStep, .drainStep,
   .drainStep, .drainStep, .drainStep]

/-- C5 counterexample: with a success continuation that throws, the
processor assigns the job the statuses `processing`, `completed` and
then `failed` — a transition out of the terminal status `completed`,
which the claim says never occurs for any continuation behaviour. -/
theorem c5_monotonic_counterexample :
    statusHistory ⟨tmplSuccThrows, 0⟩
        ((run c5BadLabels).getD initState).trace =
      ["processing", "completed", "failed"] ∧
    ["processing", "completed", "failed"] ∉ okHistories :=
  ⟨by decide, by decide⟩

def c9Labels : List Label :=
  [.addStart tmplUnknown, .addResume 0, .drainStep, .drainStep, .drainStep,
   .drainStep]

def itC9 : Item := ⟨tmplUnknown, 0⟩

/-- C9, witnessed on a completed unknown-kind execution. -/
theorem c9_unknown_kind_witness :
    Ev.apiCall itC9 ∉ ((run c9Labels).getD initState).trace ∧
    (∀ e, Ev.updFailed itC9 e ∈ ((run c9Labels).getD initState).trace →
      e = JsError.unknownKind itC9.kind) ∧
    (∀ e, Ev.errRet itC9 e ∈ ((run c9Labels).getD initState).trace →
      e = JsError.unknownKind itC9.kind) :=
  c9_unknown_kind c9Labels ((run c9Labels).getD initState) (by decide) itC9
    (by decide) (by decide)

/-! ### Claim C4: status transitions are not persisted to the inserted row -/

def c4Labels : List Label :=
  [.addStart tmplPlain, .addResume 0, .drainStep, .drainStep, .drainStep,
   .drainStep]

/-- C4: the drain loop issues its status UPDATEs with
`WHERE id = item.id`, where `item.id` is a `crypto.randomUUID()` text,
but the row `add` inserted is keyed by the table's autoincrement INTEGER
id; no UPDATE ever matches, so even a job driven to completion leaves
its row at status 'pending' — in every reachable state every row of the
queue table still has status 'pending'. -/
theorem c4_persistence_code_bug :
    (∃ s : QState, run c4Labels = some s ∧
      Ev.updCompleted ⟨tmplPlain, 0⟩ ∈ s.trace ∧
      s.table = [⟨1, ⟨tmplPlain, 0⟩, "pending", false⟩]) ∧
    (∀ ls : List Label, ∀ s : QState, run ls = some s →
      ∀ r ∈ s.table, r.status = "pending") := by
  constructor
  · exact ⟨(run c4Labels).getD initState, by decide, by decide, by decide⟩
  · intro ls s hr r hrm
    exact ((inv_run ls s hr).tableStatus r hrm).1

/-! ### Claim C8: a throwing failure continuation kills the drain -/

/-- Once the drain is stuck (a failure continuation threw out of
`process()`), no schedule revives it: `isProcessing` stays `true`, no
further settlement call is issued, and the stranded queue is never
drained. -/
theorem runFrom_stuck (ls : List Label) : ∀ s s' : QState,
    s.drain = Drain.stuck → s.isProcessing = true →
    runFrom s ls = some s' →
    s'.drain = Drain.stuck ∧ s'.isProcessing = true ∧
    apiItems s'.trace = apiItems s.trace ∧
    ∃ ext, s'.queue = s.queue ++ ext := by
  induction ls with
  | nil =>
      intro s s' hd hip hr
      obtain rfl : s = s' := Option.some_injective _ hr
      exact ⟨hd, hip, rfl, [], by simp⟩
  | cons l tl ih =>
      intro s s' hd hip hr
      unfold runFrom at hr
      cases hst : step l s with
      | none => rw [hst] at hr; simp at hr
      | some s1 =>
          rw [hst] at hr
          simp only at hr
          have hmid : s1.drain = Drain.stuck ∧ s1.isProcessing = true ∧
              apiItems s1.trace = apiItems s.trace ∧
              ∃ ext0, s1.queue = s.queue ++ ext0 := by
            cases l with
            | addStart t =>
                have he : step (Label.addStart t) s = some (stepAddStart t s) := rfl
                rw [he] at hst
                obtain rfl : stepAddStart t s = s1 := Option.some_injective _ hst
                refine ⟨hd, hip, by simp [stepAddStart], [⟨t, s.nextId⟩], rfl⟩
            | addResume k =>
                have he : step (Label.addResume k) s = stepAddResume k s := rfl
                rw [he] at hst
                unfold stepAddResume at hst
                split at hst
                · simp at hst
                · rename_i it hg
                  simp only at hst
                  rw [if_pos hip] at hst
                  obtain rfl : _ = s1 := Option.some_injective _ hst
                  exact ⟨hd, hip, rfl, [], by simp⟩
            | drainStep =>
                have he : step Label.drainStep s =
                    (match s.drain with
                      | Drain.running p => some (drainOne p s)
                      | _ => none) := rfl
                rw [he, hd] at hst
                simp at hst
          obtain ⟨h1, h2, h3, ext0, h4⟩ := hmid
          obtain ⟨h5, h6, h7, ext1, h8⟩ := ih s1 s' h1 h2 hr
          refine ⟨h5, h6, by rw [h7, h3], ext0 ++ ext1, ?_⟩
          rw [h8, h4, List.append_assoc]

def itC8a : Item := ⟨tmplFailCrash, 0⟩

def itC8b : Item := ⟨tmplPlain, 1⟩

def c8Labels : List Label :=
  [.addStart tmplFailCrash, .addStart tmplPlain, .addResume 0, .addResume 0,
   .drainStep, .drainStep, .drainStep, .drainStep]

/-- C8: a concrete execution in which the first job's failure
continuation throws.  The exception escapes the drain loop's catch
block, `process()`'s promise rejects with `isProcessing` left `true`,
and the second queued job — which already received no settlement call —
can never be processed by any continuation of the schedule, contrary to
the claim that continuation exceptions are caught and subsequent jobs
still processed. -/
theorem c8_continuation_code_bug :
    ∃ s : QState, run c8Labels = some s ∧ s.drain = Drain.stuck ∧
      s.isProcessing = true ∧ s.queue = [itC8b] ∧
      apiItems s.trace = [itC8a] ∧
      ∀ ls2 : List Label, ∀ s2 : QState, runFrom s ls2 = some s2 →
        s2.drain = Drain.stuck ∧ apiItems s2.trace = [itC8a] ∧
        ∃ ext, s2.queue = itC8b :: ext := by
  refine ⟨(run c8Labels).getD initState, by decide, by decide, by decide,
    by decide, by decide, ?_⟩
  intro ls2 s2 hr2
  obtain ⟨hd, -, hapi, ext, hq⟩ :=
    runFrom_stuck ls2 ((run c8Labels).getD initState) s2 (by decide) (by decide) hr2
  refine ⟨hd, ?_, ext, ?_⟩
  · rw [hapi]
    decide
  · rw [hq]
    have hque : ((run c8Labels).getD initState).queue = [itC8b] := by decide
    rw [hque]
    rfl

/-! ### Claim C6: the withdraw scenario

The withdraw success continuation (src/index.js line 1216) computes
`truncateDollar((userData.dollars || 0) + dollarAmount)`, that is
`Math.floor((d0 + 10) * 100) / 100`, in IEEE-754 binary64 arithmetic.
Each arithmetic step is modelled by the rounding relation `fl64`. -/

/-- `fl64 x q`: `q` is the binary64 (double) rounding of the positive
normal-range value `x`.  The relation pins the binade of `x`
(`2^e ≤ x < 2^(e+1)`) and requires the 53-bit significand `m` to lie
strictly within half a unit of the scaled value, so it is a *sound,
partial* specification of IEEE round-to-nearest: whenever it holds, `q`
is the value the hardware produces (no tie can satisfy the strict
bound, and `fl64_unique` shows at most one `q` satisfies it); at an
exact tie, or where rounding would carry into the next binade, it
simply holds for no `q`.  All values reached in the claims below are
normal, far from binade boundaries, and not ties. -/
def fl64 (x q : ℚ) : Prop :=
  ∃ e : ℤ, ∃ m : ℤ,
    (2 : ℚ) ^ e ≤ x ∧ x < (2 : ℚ) ^ (e + 1) ∧
    2 ^ 52 ≤ m ∧ m < 2 ^ 53 ∧
    |x * (2 : ℚ) ^ (52 - e) - (m : ℚ)| < 1 / 2 ∧
    q = (m : ℚ) * (2 : ℚ) ^ (e - 52)

/-- `fl64` determines the rounded value uniquely. -/
theorem fl64_unique (x q q' : ℚ) (h : fl64 x q) (h' : fl64 x q') : q = q' := by
  obtain ⟨e, m, hxl, hxu, hml, hmu, hmd, rfl⟩ := h
  obtain ⟨e', m', hxl', hxu', hml', hmu', hmd', rfl⟩ := h'
  have he : e = e' := by
    by_contra hne
    rcases lt_or_gt_of_ne hne with hlt | hlt
    · have h2 : (2 : ℚ) ^ (e + 1) ≤ (2 : ℚ) ^ e' :=
        zpow_le_zpow_right₀ (by norm_num) (by omega)
      linarith
    · have h2 : (2 : ℚ) ^ (e' + 1) ≤ (2 : ℚ) ^ e :=
        zpow_le_zpow_right₀ (by norm_num) (by omega)
      linarith
  subst he
  have hm : m = m' := by
    rw [abs_sub_lt_iff] at hmd hmd'
    have h3 : ((m - m' : ℤ) : ℚ) < 1 := by
      push_cast
      linarith [hmd.1, hmd.2, hmd'.1, hmd'.2]
    have h4 : ((m' - m : ℤ) : ℚ) < 1 := by
      push_cast
      linarith [hmd.1, hmd.2, hmd'.1, hmd'.2]
    have h5 : m - m' < 1 := by exact_mod_cast h3
    have h6 : m' - m < 1 := by exact_mod_cast h4
    omega
  rw [hm]

/-- The double stored for a ledger balance of 0.03. -/
theorem fl64_balance003 : fl64 (3 / 100) (1080863910568919 / 36028797018963968) := by
  refine ⟨-6, 8646911284551352, by norm_num, by norm_num, by norm_num,
    by norm_num, ?_, by norm_num⟩
  rw [abs_sub_lt_iff]
  constructor <;> norm_num

/-- The double produced by `0.03 + 10` (the `d0 + dollarAmount` of the
continuation). -/
theorem fl64_sum003 : fl64 (1080863910568919 / 36028797018963968 + 10)
    (5646388032815759 / 562949953421312) := by
  refine ⟨3, 5646388032815759, by norm_num, by norm_num, by norm_num,
    by norm_num, ?_, by norm_num⟩
  rw [abs_sub_lt_iff]
  constructor <;> norm_num

/-- The double produced by `(0.03 + 10) * 100`: just *below* 1003. -/
theorem fl64_prod003 : fl64 ((5646388032815759 / 562949953421312 : ℚ) * 100)
    (8822481301274623 / 8796093022208) := by
  refine ⟨9, 8822481301274623, by norm_num, by norm_num, by norm_num,
    by norm_num, ?_, by norm_num⟩
  rw [abs_sub_lt_iff]
  constructor <;> norm_num

/-- `Math.floor` of that product gives 1002 cents, not 1003. -/
theorem floor_prod003 : ⌊(8822481301274623 / 8796093022208 : ℚ)⌋ = 1002 := by
  rw [Int.floor_eq_iff]
  constructor <;> norm_num

/-- The double stored by the final `1002 / 100`. -/
theorem fl64_cents1002 : fl64 (((1002 : ℤ) : ℚ) / 100)
    (2820379266640773 / 281474976710656) := by
  refine ⟨3, 5640758533281546, by norm_num, by norm_num, by norm_num,
    by norm_num, ?_, by norm_num⟩
  rw [abs_sub_lt_iff]
  constructor <;> norm_num

/-- 10 is a double, so it rounds to itself. -/
theorem fl64_ten : fl64 (10 : ℚ) 10 := by
  refine ⟨3, 5629499534213120, by norm_num, by norm_num, by norm_num,
    by norm_num, ?_, by norm_num⟩
  rw [abs_sub_lt_iff]
  constructor <;> norm_num

/-- 1000 is a double, so it rounds to itself. -/
theorem fl64_thousand : fl64 (1000 : ℚ) 1000 := by
  refine ⟨9, 8796093022208000, by norm_num, by norm_num, by norm_num,
    by norm_num, ?_, by norm_num⟩
  rw [abs_sub_lt_iff]
  constructor <;> norm_num

/-- The withdraw job submitted by the handler (src/index.js lines
1205-1241): kind `card_to_card`, a success continuation that writes the
ledger (and does not throw), and no failure continuation at all. -/
def tmplWithdraw (ok : Bool) : ItemTmpl := ⟨"card_to_card", ok, true, false, false, false⟩

/-- The ledger effect of the withdraw flow: the users-table balance of
the submitting user is written exactly when the drain loop invokes the
job's success continuation (src/index.js lines 1214-1220); `newBal`
stands for the value `truncateDollar((userData.dollars || 0) +
dollarAmount)` that continuation computes in binary64 arithmetic — the
C6 theorems characterize it step by step through `fl64`.  No other code
path of the withdraw flow writes this balance (the job has no
`onError`). -/
def withdrawLedgerAfter (d0 newBal : ℚ) (it : Item) (tr : List Ev) : ℚ :=
  if Ev.succRet it ∈ tr then newBal else d0

def c6OkLabels : List Label :=
  [.addStart (tmplWithdraw true), .addResume 0, .drainStep, .drainStep,
   .drainStep, .drainStep, .drainStep]

def c6BadLabels : List Label :=
  [.addStart (tmplWithdraw false), .addResume 0, .drainStep, .drainStep,
   .drainStep, .drainStep]

/-- C6 counterexample: at the reachable stored balance `double(0.03)`,
a successful withdraw of fiat 10.00 does *not* increase the ledger
balance by 10.00.  The chain below is exactly the continuation's
computation `Math.floor((d0 + 10) * 100) / 100` in binary64: the sum
rounds to `s`, the product `s * 100` rounds to `p` which lies just
below 1003, `Math.floor` therefore yields 1002 cents, and the stored
balance `v` (the double of 10.02) exceeds the old balance by 9.99, not
10.00. -/
theorem c6_cent_loss_counterexample :
    ∃ d s p v : ℚ,
      fl64 (3 / 100) d ∧ fl64 (d + 10) s ∧ fl64 (s * 100) p ∧
      ⌊p⌋ = 1002 ∧ fl64 ((⌊p⌋ : ℚ) / 100) v ∧ v - d ≠ 10 := by
  refine ⟨1080863910568919 / 36028797018963968, 5646388032815759 / 562949953421312,
    8822481301274623 / 8796093022208, 2820379266640773 / 281474976710656,
    fl64_balance003, fl64_sum003, fl64_prod003, floor_prod003, ?_, by norm_num⟩
  rw [floor_prod003]
  exact fl64_cents1002

/-- C6 amended: a withdraw of fiat 10.00 with the 1e-8 conversion
multiplier submits the coin transfer amount text `"0.0000001"`; when
settlement fails, the success continuation never runs and the job has
no failure continuation, so the ledger balance is unchanged whatever
value the continuation would have stored; when settlement succeeds, the
continuation stores `Math.floor((d0 + 10) * 100) / 100` computed in
binary64 — for a fresh balance of 0.00 that arithmetic is exact and the
balance becomes exactly 0 + 10.00, while for some 2-decimal balances
(0.03, see the counterexample) the binary64 floor removes one cent and
the increase is only 9.99. -/
theorem c6_withdraw_amended :
    formatCoinAmount (JSNum.finite (withdrawCoinAmount 10)) = "0.0000001" ∧
    (∀ d0 newBal : ℚ, ∀ s' : QState, run c6BadLabels = some s' →
      withdrawLedgerAfter d0 newBal ⟨tmplWithdraw false, 0⟩ s'.trace = d0) ∧
    (∀ s p v : ℚ, fl64 ((0 : ℚ) + 10) s → fl64 (s * 100) p →
      fl64 ((⌊p⌋ : ℚ) / 100) v →
      ∀ s' : QState, run c6OkLabels = some s' →
        withdrawLedgerAfter 0 v ⟨tmplWithdraw true, 0⟩ s'.trace = 0 + 10) := by
  refine ⟨?_, ?_, ?_⟩
  · rw [formatCoinAmount_nonneg _ (by norm_num [withdrawCoinAmount]),
      numer8_c6_input]
    decide
  · intro d0 newBal s' hr
    have hs : (run c6BadLabels).getD initState = s' := by rw [hr]; rfl
    subst hs
    unfold withdrawLedgerAfter
    rw [if_neg (by decide)]
  · intro s p v hsum hprod hdiv s' hr
    have h0 : ((0 : ℚ) + 10) = 10 := by norm_num
    rw [h0] at hsum
    have hs10 : s = 10 := fl64_unique 10 s 10 hsum fl64_ten
    subst hs10
    have hm : (10 : ℚ) * 100 = 1000 := by norm_num
    rw [hm] at hprod
    have hp1000 : p = 1000 := fl64_unique 1000 p 1000 hprod fl64_thousand
    subst hp1000
    have hfl : ⌊(1000 : ℚ)⌋ = (1000 : ℤ) := by
      rw [show (1000 : ℚ) = ((1000 : ℤ) : ℚ) by norm_num, Int.floor_intCast]
    rw [hfl] at hdiv
    have hq : ((1000 : ℤ) : ℚ) / 100 = 10 := by norm_num
    rw [hq] at hdiv
    have hv10 : v = 10 := fl64_unique 10 v 10 hdiv fl64_ten
    subst hv10
    have hs : (run c6OkLabels).getD initState = s' := by rw [hr]; rfl
    subst hs
    unfold withdrawLedgerAfter
    rw [if_pos (by decide)]
    norm_num

end CoinBot
